import Mathlib

/-!
Verification of the archive-synchronization core of this repository
(src/db/update/Archive.cxx), the UPnP global init/finish reference
counter (src/lib/upnp/Init.cxx), and the xmp decoder's input-size limit
(src/decoder/plugins/XmpDecoderPlugin.cxx), as a shallow embedding.

The directory tree is modelled as a nested inductive value; the global
database lock serializes every tree access in the source, so the
lock-guarded mutations are modelled as pure functional updates applied
in program order.
-/

/-- The `device` field of a `Directory`: either an ordinary device id or
the sentinel `DEVICE_INARCHIVE` set on nodes created while walking an
archive. -/
inductive Device where
  | normal : Device
  | inArchive : Device
deriving DecidableEq, Repr

/-- A node of the simple database's directory tree
(db/plugins/simple/Directory.hxx): name, device marker, modification
time, child directories and songs (leaves, identified by name; the
song's decoded metadata is opaque to the update walk). -/
inductive Dir where
  | mk (name : String) (device : Device) (mtime : Nat)
       (children : List Dir) (songs : List String)

/-- The name of a directory node. -/
def Dir.name : Dir → String
  | .mk n _ _ _ _ => n

/-- The device marker of a directory node. -/
def Dir.device : Dir → Device
  | .mk _ dv _ _ _ => dv

/-- The stored modification time of a directory node. -/
def Dir.mtime : Dir → Nat
  | .mk _ _ m _ _ => m

/-- The child directories of a node. -/
def Dir.children : Dir → List Dir
  | .mk _ _ _ c _ => c

/-- The songs (leaves) directly inside a node. -/
def Dir.songs : Dir → List String
  | .mk _ _ _ _ s => s

/-- Replace the device marker (`subdir->device = DEVICE_INARCHIVE`). -/
def Dir.setDevice : Dir → Device → Dir
  | .mk n _ m c s, dv => .mk n dv m c s

/-- Replace the stored modification time (`directory->mtime = info.mtime`). -/
def Dir.setMtime : Dir → Nat → Dir
  | .mk n dv _ c s, m => .mk n dv m c s

/-- Replace the child list of a node. -/
def Dir.setChildren : Dir → List Dir → Dir
  | .mk n dv m _ s, c => .mk n dv m c s

/-- `Directory::AddSong`: attach a leaf by name. -/
def Dir.addSong : Dir → String → Dir
  | .mk n dv m c s, t => .mk n dv m c (s ++ [t])

/-- A freshly created child directory (`Directory::CreateChild`): named,
ordinary device, zero mtime, empty. -/
def newDir (n : String) : Dir :=
  .mk n .normal 0 [] []

/-- Find the first directory with the given name in a sibling list
(`Directory::FindChild`). -/
def findIn : List Dir → String → Option Dir
  | [], _ => none
  | c :: cs, n => if c.name = n then some c else findIn cs n

/-- Replace the first directory with the given name in a sibling list
(in-place mutation of the found child, functionally). -/
def replaceIn : List Dir → String → Dir → List Dir
  | [], _, _ => []
  | c :: cs, n, x => if c.name = n then x :: cs else c :: replaceIn cs n x

/-- Remove the first directory with the given name from a sibling list
(`DatabaseEditor::LockDeleteDirectory`: the whole subtree value goes
with it). -/
def removeIn : List Dir → String → List Dir
  | [], _ => []
  | c :: cs, n => if c.name = n then cs else c :: removeIn cs n

/-- Whether a song list contains the given name (`Directory::FindSong`). -/
def hasSongIn : List String → String → Bool
  | [], _ => false
  | s :: ss, t => if s = t then true else hasSongIn ss t

/-- How many songs of the given name a song list holds. -/
def countSongIn : List String → String → Nat
  | [], _ => 0
  | s :: ss, t => (if s = t then 1 else 0) + countSongIn ss t

/-- Sibling-name uniqueness at one level (the database invariant that no
two sibling directories share a name). -/
def nodupNames : List Dir → Bool
  | [] => true
  | c :: cs => (findIn cs c.name).isNone && nodupNames cs

/-- `Directory::FindChild` under the database lock. -/
def findChild (d : Dir) (n : String) : Option Dir :=
  findIn d.children n

/-- `Directory::MakeChild` under the database lock: find the child or
create and attach a fresh one. -/
def makeChild (d : Dir) (n : String) : Dir :=
  match findIn d.children n with
  | some _ => d
  | none => d.setChildren (d.children ++ [newDir n])

/-- Write back a mutated child into its parent. -/
def replaceChild (d : Dir) (n : String) (x : Dir) : Dir :=
  d.setChildren (replaceIn d.children n x)

/-- Delete the child subtree of the given name. -/
def removeChild (d : Dir) (n : String) : Dir :=
  d.setChildren (removeIn d.children n)

/-- `Directory::FindSong` under the database lock. -/
def findSong (d : Dir) (n : String) : Bool :=
  hasSongIn d.songs n

/-- Split a character list at every '/', keeping empty components, the
way the `strchr(name, '/')` loop of `UpdateArchiveTree` consumes the
entry path: everything before the first '/' is the first component, the
rest is split recursively. -/
def splitChars : List Char → List (List Char)
  | [] => [[]]
  | c :: cs =>
    if c = '/' then [] :: splitChars cs
    else
      match splitChars cs with
      | [] => [[c]]
      | l :: ls => (c :: l) :: ls

/-- The '/'-separated components of an entry path. -/
def splitOnSlash (s : String) : List String :=
  (splitChars s.data).map (fun l => String.mk l)

/-- Result of one `UpdateWalk::UpdateArchiveTree` call: the updated
subtree root, whether the `modified` flag was set, and whether the
"archive returned directory only" warning was logged. -/
structure GraftResult where
  dir : Dir
  modified : Bool
  warned : Bool

/-- `UpdateWalk::UpdateArchiveTree`, over the '/'-separated segments of
the entry path (`strchr(name, '/')` splits off the first segment; the
recursion consumes the remainder). `load` models `Song::LoadFile`:
whether loading the leaf of that name succeeds. -/
def graft (load : String → Bool) : Dir → List String → GraftResult
  | d, [] => ⟨d, false, false⟩
  | d, [leaf] =>
    if leaf = "" then ⟨d, false, true⟩
    else if findSong d leaf then ⟨d, false, false⟩
    else if load leaf then ⟨d.addSong leaf, true, false⟩
    else ⟨d, false, false⟩
  | d, seg :: s2 :: rest =>
    let d1 := makeChild d seg
    match findChild d1 seg with
    | none => ⟨d1, false, false⟩
    | some c =>
      let r := graft load (c.setDevice .inArchive) (s2 :: rest)
      ⟨replaceChild d1 seg r.dir, r.modified, r.warned⟩

/-- The `UpdateArchiveVisitor` loop: feed each entry produced by
`ArchiveFile::Visit` to `UpdateArchiveTree`. `throwAt` models an
exception raised while processing the entry at that index (propagating
out of `Visit`); the third component reports whether the visit raised. -/
def visitFrom (load : String → Bool) (throwAt : Option Nat) :
    Dir → Nat → List String → Dir × Bool × Bool
  | d, _, [] => (d, false, false)
  | d, i, e :: es =>
    if throwAt = some i then (d, false, true)
    else
      let r := graft load d (splitOnSlash e)
      let rest := visitFrom load throwAt r.dir (i + 1) es
      (rest.1, r.modified || rest.2.1, rest.2.2)

/-- Outcome of one `UpdateWalk::UpdateArchiveFile` call: the parent
directory after the call, whether the `modified` flag was set, how many
`archive_file_open` attempts were made, whether `ArchiveFile::Close`
ran, and whether an exception escaped the visit. -/
structure SyncResult where
  parent : Dir
  modified : Bool
  opens : Nat
  closed : Bool
  raised : Bool

/-- `UpdateWalk::UpdateArchiveFile(parent, name, info, plugin)`.
`discard` is `walk_discard`; `isLocal` is whether
`storage.MapChildFS` yields a path; `openRes` is the outcome of
`archive_file_open` (`none` = open failed, `some entries` = the entry
paths the reader will visit); `throwAt` models an exception during the
visit; `mtime` is `info.mtime`. -/
def updateArchiveFile (discard : Bool) (isLocal : Bool)
    (openRes : Option (List String)) (throwAt : Option Nat)
    (load : String → Bool) (parent : Dir) (name : String) (mtime : Nat) :
    SyncResult :=
  let dirOpt := findChild parent name
  if (match dirOpt with
      | some d => d.mtime == mtime
      | none => false) && !discard then
    ⟨parent, false, 0, false, false⟩
  else if !isLocal then
    ⟨parent, false, 0, false, false⟩
  else
    match openRes with
    | none =>
      match dirOpt with
      | some _ => ⟨removeChild parent name, false, 1, false, false⟩
      | none => ⟨parent, false, 1, false, false⟩
    | some entries =>
      let d0 := match dirOpt with
        | some d => d
        | none => (newDir name).setDevice .inArchive
      let d1 := d0.setMtime mtime
      let v := visitFrom load throwAt d1 0 entries
      let parent2 := match dirOpt with
        | some _ => replaceChild parent name v.1
        | none => parent.setChildren (parent.children ++ [v.1])
      ⟨parent2, v.2.1, 1, !v.2.2, v.2.2⟩

/-- Navigate a chain of child directories by name. -/
def dirAt (d : Dir) : List String → Option Dir
  | [] => some d
  | seg :: rest =>
    match findChild d seg with
    | some c => dirAt c rest
    | none => none

/-- Whether a song named `s` sits in the directory reached through the
segment chain `p` (`false` when the chain is broken). -/
def songAt (d : Dir) (p : List String) (s : String) : Bool :=
  match dirAt d p with
  | some f => hasSongIn f.songs s
  | none => false

/-- Whether the tree holds, for the given entry segments, a chain of
`IN_ARCHIVE`-marked directories named after every segment but the last,
closed by a leaf named after the last segment. -/
def hasChain (d : Dir) : List String → Bool
  | [] => true
  | [leaf] => findSong d leaf
  | seg :: s2 :: rest =>
    match findChild d seg with
    | some c => (c.device == Device.inArchive) && hasChain c (s2 :: rest)
    | none => false

/-- How many leaves named after the final segment sit at the end of the
directory chain spelled by the other segments (`0` when the chain is
broken). -/
def songCountAt (d : Dir) : List String → Nat
  | [] => 0
  | [leaf] => countSongIn d.songs leaf
  | seg :: s2 :: rest =>
    match findChild d seg with
    | some c => songCountAt c (s2 :: rest)
    | none => 0

mutual

/-- Total number of leaves in a subtree. -/
def totalSongs : Dir → Nat
  | .mk _ _ _ children songs => songs.length + totalSongsList children

/-- Total number of leaves in a forest. -/
def totalSongsList : List Dir → Nat
  | [] => 0
  | c :: cs => totalSongs c + totalSongsList cs

end

/-- One call into the UPnP global init/finish pair. -/
inductive UOp where
  | init : UOp
  | finish : UOp

/-- Observable state of src/lib/upnp/Init.cxx: the reference counter
`upnp_ref`, whether the underlying library is currently initialized, and
how many times `UpnpInit` (through `DoInit`) and `UpnpFinish` have been
invoked. -/
structure UState where
  ref : Nat
  lib : Bool
  initCalls : Nat
  finishCalls : Nat
deriving DecidableEq, Repr

/-- `UpnpGlobalInit` (under `upnp_init_mutex`): run `DoInit` when the
counter is zero, then increment it. `UpnpInit` is modelled as
succeeding. -/
def upnpGlobalInit (s : UState) : UState :=
  if s.ref = 0 then
    ⟨1, true, s.initCalls + 1, s.finishCalls⟩
  else
    ⟨s.ref + 1, s.lib, s.initCalls, s.finishCalls⟩

/-- `UpnpGlobalFinish` (under `upnp_init_mutex`): `assert(upnp_ref > 0)`
(`none` models the assertion firing), decrement, and call `UpnpFinish`
when the counter reaches zero. -/
def upnpGlobalFinish (s : UState) : Option UState :=
  if s.ref = 0 then none
  else if s.ref - 1 = 0 then
    some ⟨0, false, s.initCalls, s.finishCalls + 1⟩
  else
    some ⟨s.ref - 1, s.lib, s.initCalls, s.finishCalls⟩

/-- Run a sequence of init/finish calls from a state. -/
def runUpnp : UState → List UOp → Option UState
  | s, [] => some s
  | s, .init :: ops => runUpnp (upnpGlobalInit s) ops
  | s, .finish :: ops =>
    match upnpGlobalFinish s with
    | some s2 => runUpnp s2 ops
    | none => none

/-- Number of `UpnpGlobalInit` calls in a sequence. -/
def countInits : List UOp → Nat
  | [] => 0
  | .init :: ops => countInits ops + 1
  | .finish :: ops => countInits ops

/-- Number of `UpnpGlobalFinish` calls in a sequence. -/
def countFinishes : List UOp → Nat
  | [] => 0
  | .init :: ops => countFinishes ops
  | .finish :: ops => countFinishes ops + 1

/-- Whether, starting from counter value `r`, every finish in the
sequence finds a positive counter (so the assertion never fires). -/
def safeOps : Nat → List UOp → Bool
  | _, [] => true
  | r, .init :: ops => safeOps (r + 1) ops
  | 0, .finish :: _ => false
  | r + 1, .finish :: ops => safeOps r ops

/-- The process-wide state before any UPnP call. -/
def upnpStart : UState :=
  ⟨0, false, 0, 0⟩

/-- `LIBXMP_FILE_LIMIT` from XmpDecoderPlugin.cxx. -/
def LIBXMP_FILE_LIMIT : Nat := 100 * 1024 * 1024

/-- The `Xmp::load_module` read loop: `decoder_read` delivers up to 8192
bytes per iteration out of a stream of `n` bytes in total; `c` bytes
have been accumulated so far. Returns the final buffer size, or
`Except.error ()` for the `"file is too large"` throw once the buffer
exceeds `LIBXMP_FILE_LIMIT`. (The i/o-error throw needs a non-EOF
short read, which the byte-count model cannot produce.) -/
def loadModuleLoop (n c : Nat) : Except Unit Nat :=
  if _h : min 8192 (n - c) = 0 then
    .ok c
  else if c + min 8192 (n - c) > LIBXMP_FILE_LIMIT then
    .error ()
  else
    loadModuleLoop n (c + min 8192 (n - c))
termination_by n - c
decreasing_by omega

/-- `Xmp::load_module` on a stream of `n` bytes. -/
def loadModule (n : Nat) : Except Unit Nat :=
  loadModuleLoop n 0

/-- The `Xmp` constructor: create a context, load the module bytes, hand
them to `xmp_load_module_from_memory`, start the player. `ctxOk`,
`loadOk` and `startOk` model the outcomes of the three native calls. -/
def xmpConstruct (n : Nat) (ctxOk loadOk startOk : Bool) :
    Except Unit Unit :=
  if !ctxOk then .error ()
  else
    match loadModule n with
    | .error e => .error e
    | .ok _ =>
      if !loadOk then .error ()
      else if !startOk then .error ()
      else .ok ()

/-- `libxmp_scan_stream`: `true` on a fully constructed `Xmp`, `false`
when the constructor throws. -/
def libxmpScanStream (n : Nat) (ctxOk loadOk startOk : Bool) : Bool :=
  match xmpConstruct n ctxOk loadOk startOk with
  | .ok _ => true
  | .error _ => false

/-- `libxmp_stream_decode`: on a constructor throw the exception is
caught, a warning is logged and nothing is decoded; otherwise `frames`
frames are played and submitted. Returns (warning logged, frames
submitted). -/
def libxmpStreamDecode (n : Nat) (ctxOk loadOk startOk : Bool)
    (frames : Nat) : Bool × Nat :=
  match xmpConstruct n ctxOk loadOk startOk with
  | .error _ => (true, 0)
  | .ok _ => (false, frames)

/-- The final '/'-separated component of an entry path (the leaf
component handed to the `StringIsEmpty` check / `Song::LoadFile`). -/
def lastSeg : List String → String
  | [] => ""
  | [x] => x
  | _ :: y :: rest => lastSeg (y :: rest)

/-- An empty music root used as a concrete test tree. -/
def sampleRoot : Dir :=
  .mk "music" .normal 0 [] []

/-- A previously synced archive directory node: marked `IN_ARCHIVE`,
stored mtime 5, one stale leaf. -/
def sampleArchiveDir : Dir :=
  .mk "a.zip" .inArchive 5 [] ["old.mod"]

/-- A parent directory already holding `sampleArchiveDir`. -/
def sampleParent : Dir :=
  .mk "music" .normal 0 [sampleArchiveDir] []

@[simp]
theorem Dir.name_mk (n dv m c s) : (Dir.mk n dv m c s).name = n := rfl

@[simp]
theorem Dir.device_mk (n dv m c s) : (Dir.mk n dv m c s).device = dv := rfl

@[simp]
theorem Dir.mtime_mk (n dv m c s) : (Dir.mk n dv m c s).mtime = m := rfl

@[simp]
theorem Dir.children_mk (n dv m c s) : (Dir.mk n dv m c s).children = c := rfl

@[simp]
theorem Dir.songs_mk (n dv m c s) : (Dir.mk n dv m c s).songs = s := rfl

@[simp]
theorem Dir.setDevice_def (d : Dir) (v : Device) :
    d.setDevice v = .mk d.name v d.mtime d.children d.songs := by
  cases d
  rfl

@[simp]
theorem Dir.setMtime_def (d : Dir) (m : Nat) :
    d.setMtime m = .mk d.name d.device m d.children d.songs := by
  cases d
  rfl

@[simp]
theorem Dir.setChildren_def (d : Dir) (c : List Dir) :
    d.setChildren c = .mk d.name d.device d.mtime c d.songs := by
  cases d
  rfl

@[simp]
theorem Dir.addSong_def (d : Dir) (t : String) :
    d.addSong t = .mk d.name d.device d.mtime d.children (d.songs ++ [t]) := by
  cases d
  rfl

theorem Dir.setDevice_same (d : Dir) : d.setDevice d.device = d := by
  cases d
  rfl

theorem findIn_name {cs : List Dir} {n : String} {c : Dir}
    (h : findIn cs n = some c) : c.name = n := by
  induction cs with
  | nil => simp [findIn] at h
  | cons a as ih =>
    by_cases ha : a.name = n
    · simp [findIn, ha] at h
      rw [← h]
      exact ha
    · simp [findIn, ha] at h
      exact ih h

theorem findIn_append_of_found {cs : List Dir} {q : String} {c : Dir}
    (x : Dir) (h : findIn cs q = some c) : findIn (cs ++ [x]) q = some c := by
  induction cs with
  | nil => simp [findIn] at h
  | cons a as ih =>
    by_cases ha : a.name = q
    · simp [findIn, ha] at h ⊢
      exact h
    · simp [findIn, ha] at h ⊢
      exact ih h

theorem findIn_append_none_self {cs : List Dir} {n : String} {x : Dir}
    (h : findIn cs n = none) (hx : x.name = n) :
    findIn (cs ++ [x]) n = some x := by
  induction cs with
  | nil => simp [findIn, hx]
  | cons a as ih =>
    by_cases ha : a.name = n
    · simp [findIn, ha] at h
    · simp [findIn, ha] at h ⊢
      exact ih h

theorem findIn_append_of_ne {cs : List Dir} {q : String} {x : Dir}
    (hx : x.name ≠ q) : findIn (cs ++ [x]) q = findIn cs q := by
  induction cs with
  | nil => simp [findIn, hx]
  | cons a as ih =>
    by_cases ha : a.name = q
    · simp [findIn, ha]
    · simp [findIn, ha]
      exact ih

theorem findIn_replaceIn_self {cs : List Dir} {n : String} {c x : Dir}
    (h : findIn cs n = some c) (hx : x.name = n) :
    findIn (replaceIn cs n x) n = some x := by
  induction cs with
  | nil => simp [findIn] at h
  | cons a as ih =>
    by_cases ha : a.name = n
    · simp [replaceIn, ha, findIn, hx]
    · simp [findIn, ha] at h
      simp [replaceIn, ha, findIn]
      exact ih h

theorem findIn_replaceIn_ne {cs : List Dir} {n q : String} {x : Dir}
    (hq : q ≠ n) (hx : x.name = n) :
    findIn (replaceIn cs n x) q = findIn cs q := by
  induction cs with
  | nil => simp [replaceIn, findIn]
  | cons a as ih =>
    by_cases ha : a.name = n
    · have hxq : ¬ (x.name = q) := by
        rw [hx]
        intro hh
        exact hq hh.symm
      have haq : ¬ (a.name = q) := by
        rw [ha]
        intro hh
        exact hq hh.symm
      rw [replaceIn, if_pos ha, findIn, if_neg hxq, findIn, if_neg haq]
    · rw [replaceIn, if_neg ha]
      by_cases haq : a.name = q
      · rw [findIn, if_pos haq, findIn, if_pos haq]
      · rw [findIn, if_neg haq, findIn, if_neg haq]
        exact ih

theorem replaceIn_self {cs : List Dir} {n : String} {c : Dir}
    (h : findIn cs n = some c) : replaceIn cs n c = cs := by
  induction cs with
  | nil => rfl
  | cons a as ih =>
    by_cases ha : a.name = n
    · simp [findIn, ha] at h
      subst h
      rw [replaceIn, if_pos ha]
    · simp [findIn, ha] at h
      rw [replaceIn, if_neg ha, ih h]

theorem findIn_removeIn_self {cs : List Dir} {n : String}
    (h : nodupNames cs = true) : findIn (removeIn cs n) n = none := by
  induction cs with
  | nil => rfl
  | cons a as ih =>
    simp [nodupNames, Bool.and_eq_true, Option.isNone_iff_eq_none] at h
    by_cases ha : a.name = n
    · simp [removeIn, ha]
      rw [← ha]
      exact h.1
    · simp [removeIn, ha, findIn]
      exact ih h.2

theorem makeChild_name (d : Dir) (n : String) :
    (makeChild d n).name = d.name := by
  unfold makeChild
  cases findIn d.children n <;> simp

theorem makeChild_device (d : Dir) (n : String) :
    (makeChild d n).device = d.device := by
  unfold makeChild
  cases findIn d.children n <;> simp

theorem makeChild_mtime (d : Dir) (n : String) :
    (makeChild d n).mtime = d.mtime := by
  unfold makeChild
  cases findIn d.children n <;> simp

theorem makeChild_songs (d : Dir) (n : String) :
    (makeChild d n).songs = d.songs := by
  unfold makeChild
  cases findIn d.children n <;> simp

theorem graft_dir_name (load : String → Bool) (d : Dir) (segs : List String) :
    (graft load d segs).dir.name = d.name := by
  cases segs with
  | nil => rfl
  | cons s1 t =>
    cases t with
    | nil =>
      simp only [graft]
      split
      · rfl
      · split
        · rfl
        · split <;> simp
    | cons s2 r =>
      simp only [graft]
      split
      · simp [makeChild_name]
      · simp [replaceChild, makeChild_name]

theorem graft_dir_device (load : String → Bool) (d : Dir) (segs : List String) :
    (graft load d segs).dir.device = d.device := by
  cases segs with
  | nil => rfl
  | cons s1 t =>
    cases t with
    | nil =>
      simp only [graft]
      split
      · rfl
      · split
        · rfl
        · split <;> simp
    | cons s2 r =>
      simp only [graft]
      split
      · simp [makeChild_device]
      · simp [replaceChild, makeChild_device]

theorem graft_dir_mtime (load : String → Bool) (d : Dir) (segs : List String) :
    (graft load d segs).dir.mtime = d.mtime := by
  cases segs with
  | nil => rfl
  | cons s1 t =>
    cases t with
    | nil =>
      simp only [graft]
      split
      · rfl
      · split
        · rfl
        · split <;> simp
    | cons s2 r =>
      simp only [graft]
      split
      · simp [makeChild_mtime]
      · simp [replaceChild, makeChild_mtime]

theorem visitFrom_dir_name (load : String → Bool) (throwAt : Option Nat)
    (d : Dir) (i : Nat) (es : List String) :
    (visitFrom load throwAt d i es).1.name = d.name := by
  induction es generalizing d i with
  | nil => rfl
  | cons e t ih =>
    simp only [visitFrom]
    split
    · rfl
    · rw [ih]
      exact graft_dir_name load d (splitOnSlash e)

theorem visitFrom_dir_mtime (load : String → Bool) (throwAt : Option Nat)
    (d : Dir) (i : Nat) (es : List String) :
    (visitFrom load throwAt d i es).1.mtime = d.mtime := by
  induction es generalizing d i with
  | nil => rfl
  | cons e t ih =>
    simp only [visitFrom]
    split
    · rfl
    · rw [ih]
      exact graft_dir_mtime load d (splitOnSlash e)

theorem songAt_nil (d : Dir) (s : String) :
    songAt d [] s = hasSongIn d.songs s := rfl

theorem songAt_cons (d : Dir) (q : String) (p : List String) (s : String) :
    songAt d (q :: p) s =
      match findChild d q with
      | some c => songAt c p s
      | none => false := by
  simp only [songAt, dirAt]
  cases findChild d q <;> rfl

theorem songAt_setDevice (d : Dir) (v : Device) (p : List String)
    (s : String) : songAt (d.setDevice v) p s = songAt d p s := by
  cases p with
  | nil => simp [songAt_nil]
  | cons q t => simp [songAt_cons, findChild]

theorem songAt_setMtime (d : Dir) (m : Nat) (p : List String)
    (s : String) : songAt (d.setMtime m) p s = songAt d p s := by
  cases p with
  | nil => simp [songAt_nil]
  | cons q t => simp [songAt_cons, findChild]

theorem hasSongIn_append_mono {ss : List String} {s : String} (t : String)
    (h : hasSongIn ss s = true) : hasSongIn (ss ++ [t]) s = true := by
  induction ss with
  | nil => simp [hasSongIn] at h
  | cons a as ih =>
    by_cases ha : a = s
    · simp [hasSongIn, ha]
    · simp [hasSongIn, ha] at h ⊢
      exact ih h

theorem hasSongIn_append_self (ss : List String) (s : String) :
    hasSongIn (ss ++ [s]) s = true := by
  induction ss with
  | nil => simp [hasSongIn]
  | cons a as ih =>
    by_cases ha : a = s
    · simp [hasSongIn, ha]
    · simp [hasSongIn, ha]
      exact ih

theorem songAt_addSong_mono {d : Dir} {p : List String} {s : String}
    (t : String) (h : songAt d p s = true) :
    songAt (d.addSong t) p s = true := by
  cases p with
  | nil =>
    simp only [songAt_nil] at h ⊢
    simp only [Dir.addSong_def, Dir.songs_mk]
    exact hasSongIn_append_mono t h
  | cons q r =>
    simp only [songAt_cons, findChild, Dir.addSong_def, Dir.children_mk] at h ⊢
    exact h

theorem songAt_makeChild_mono {d : Dir} {p : List String} {s : String}
    (n : String) (h : songAt d p s = true) :
    songAt (makeChild d n) p s = true := by
  unfold makeChild
  cases hf : findIn d.children n with
  | some c => exact h
  | none =>
    cases p with
    | nil =>
      simp only [songAt_nil] at h ⊢
      simpa using h
    | cons q r =>
      simp only [songAt_cons, findChild, Dir.setChildren_def,
        Dir.children_mk] at h ⊢
      cases hq : findIn d.children q with
      | some c =>
        rw [hq] at h
        rw [findIn_append_of_found (newDir n) hq]
        exact h
      | none =>
        rw [hq] at h
        simp at h

theorem graft_songAt_mono (load : String → Bool) {d : Dir}
    {segs p : List String} {s : String} (h : songAt d p s = true) :
    songAt (graft load d segs).dir p s = true := by
  induction segs generalizing d p with
  | nil => exact h
  | cons s1 t ih =>
    cases t with
    | nil =>
      simp only [graft]
      split
      · exact h
      · split
        · exact h
        · split
          · exact songAt_addSong_mono s1 h
          · exact h
    | cons s2 r =>
      simp only [graft]
      have h1 : songAt (makeChild d s1) p s = true :=
        songAt_makeChild_mono s1 h
      cases hf : findChild (makeChild d s1) s1 with
      | none => exact h1
      | some c =>
        have hcname : c.name = s1 := findIn_name hf
        have hc2name :
            (graft load (c.setDevice .inArchive) (s2 :: r)).dir.name = s1 := by
          rw [graft_dir_name]
          simpa using hcname
        cases p with
        | nil =>
          simp only [songAt_nil] at h1 ⊢
          simpa [replaceChild] using h1
        | cons q p2 =>
          by_cases hq : q = s1
          · subst hq
            simp only [songAt_cons] at h1 ⊢
            rw [findChild, replaceChild, Dir.setChildren_def, Dir.children_mk,
              findIn_replaceIn_self hf hc2name]
            rw [hf] at h1
            have h2 : songAt (c.setDevice .inArchive) p2 s = true := by
              rw [songAt_setDevice]
              exact h1
            exact ih h2
          · simp only [songAt_cons] at h1 ⊢
            rw [findChild, replaceChild, Dir.setChildren_def, Dir.children_mk,
              findIn_replaceIn_ne hq hc2name]
            exact h1

theorem visitFrom_songAt_mono (load : String → Bool) (throwAt : Option Nat)
    {d : Dir} {p : List String} {s : String} (i : Nat) (es : List String)
    (h : songAt d p s = true) :
    songAt (visitFrom load throwAt d i es).1 p s = true := by
  induction es generalizing d i with
  | nil => exact h
  | cons e t ih =>
    simp only [visitFrom]
    split
    · exact h
    · exact ih (i + 1) (graft_songAt_mono load h)

theorem splitChars_ne_nil (l : List Char) : splitChars l ≠ [] := by
  induction l with
  | nil => simp [splitChars]
  | cons c cs ih =>
    by_cases hc : c = '/'
    · simp [splitChars, hc]
    · simp only [splitChars, if_neg hc]
      cases hs : splitChars cs with
      | nil => simp
      | cons a as => simp

theorem splitOnSlash_ne_nil (p : String) : splitOnSlash p ≠ [] := by
  unfold splitOnSlash
  intro h
  exact splitChars_ne_nil p.data (List.map_eq_nil_iff.mp h)

theorem findChild_makeChild (d : Dir) (n : String) :
    (findIn d.children n = none ∧
      findChild (makeChild d n) n = some (newDir n)) ∨
    (∃ c, findIn d.children n = some c ∧
      findChild (makeChild d n) n = some c) := by
  cases hf : findIn d.children n with
  | none =>
    left
    refine ⟨rfl, ?_⟩
    unfold findChild makeChild
    rw [hf]
    simp only [Dir.setChildren_def, Dir.children_mk]
    exact findIn_append_none_self hf rfl
  | some c =>
    right
    refine ⟨c, rfl, ?_⟩
    unfold findChild makeChild
    rw [hf]
    exact hf

theorem hasChain_cons (d : Dir) (s1 s2 : String) (r : List String) :
    hasChain d (s1 :: s2 :: r) =
      match findChild d s1 with
      | some c => (c.device == Device.inArchive) && hasChain c (s2 :: r)
      | none => false := rfl

theorem graft_hasChain (load : String → Bool) (d : Dir)
    (segs : List String) (hne : segs ≠ []) (hlast : lastSeg segs ≠ "")
    (hload : load (lastSeg segs) = true) :
    hasChain (graft load d segs).dir segs = true := by
  induction segs generalizing d with
  | nil => exact absurd rfl hne
  | cons s1 t ih =>
    cases t with
    | nil =>
      have hs1 : s1 ≠ "" := hlast
      have hl : load s1 = true := hload
      simp only [graft, if_neg hs1]
      by_cases hfs : findSong d s1
      · simp [hfs, hasChain]
      · simp only [hfs, Bool.false_eq_true, if_false, hl, if_true]
        simp only [hasChain, findSong, Dir.addSong_def, Dir.songs_mk]
        exact hasSongIn_append_self d.songs s1
    | cons s2 r =>
      have hlast2 : lastSeg (s2 :: r) ≠ "" := hlast
      have hload2 : load (lastSeg (s2 :: r)) = true := hload
      simp only [graft]
      cases hf : findChild (makeChild d s1) s1 with
      | none =>
        rcases findChild_makeChild d s1 with ⟨_, h2⟩ | ⟨c, _, h2⟩ <;>
          rw [h2] at hf <;> exact Option.noConfusion hf
      | some c =>
        have hcname : c.name = s1 := findIn_name hf
        have hc2name :
            (graft load (c.setDevice .inArchive) (s2 :: r)).dir.name = s1 := by
          rw [graft_dir_name]
          simpa using hcname
        simp only [hasChain_cons]
        rw [findChild, replaceChild, Dir.setChildren_def, Dir.children_mk,
          findIn_replaceIn_self hf hc2name]
        have hdev :
            (graft load (c.setDevice .inArchive) (s2 :: r)).dir.device =
              Device.inArchive := by
          rw [graft_dir_device]
          simp
        show ((graft load (c.setDevice .inArchive) (s2 :: r)).dir.device ==
            Device.inArchive &&
          hasChain (graft load (c.setDevice .inArchive) (s2 :: r)).dir
            (s2 :: r)) = true
        rw [hdev]
        simp only [beq_self_eq_true, Bool.true_and]
        exact ih (c.setDevice .inArchive) (by simp) hlast2 hload2

theorem Dir.setChildren_self (d : Dir) : d.setChildren d.children = d := by
  cases d
  rfl

theorem makeChild_of_found {d : Dir} {n : String} {c : Dir}
    (h : findIn d.children n = some c) : makeChild d n = d := by
  unfold makeChild
  rw [h]

theorem graft_cons_cons (load : String → Bool) (d : Dir) (s1 s2 : String)
    (r : List String) {c : Dir} (hf : findChild (makeChild d s1) s1 = some c) :
    graft load d (s1 :: s2 :: r) =
      ⟨replaceChild (makeChild d s1) s1
        (graft load (c.setDevice .inArchive) (s2 :: r)).dir,
       (graft load (c.setDevice .inArchive) (s2 :: r)).modified,
       (graft load (c.setDevice .inArchive) (s2 :: r)).warned⟩ := by
  conv_lhs => rw [graft]
  rw [hf]

theorem graft_idem (load : String → Bool) (d : Dir) (segs : List String) :
    graft load (graft load d segs).dir segs =
      ⟨(graft load d segs).dir, false, (graft load d segs).warned⟩ := by
  induction segs generalizing d with
  | nil => rfl
  | cons s1 t ih =>
    cases t with
    | nil =>
      by_cases h1 : s1 = ""
      · simp [graft, h1]
      · by_cases h2 : findSong d s1
        · simp [graft, h1, h2]
        · by_cases h3 : load s1
          · have hfs : findSong (Dir.mk d.name d.device d.mtime d.children
                (d.songs ++ [s1])) s1 = true := by
              simp only [findSong, Dir.songs_mk]
              exact hasSongIn_append_self d.songs s1
            simp [graft, h1, h2, h3, hfs]
          · simp [graft, h1, h2, h3]
    | cons s2 r =>
      cases hf : findChild (makeChild d s1) s1 with
      | none =>
        rcases findChild_makeChild d s1 with ⟨_, h2⟩ | ⟨c, _, h2⟩ <;>
          rw [h2] at hf <;> exact Option.noConfusion hf
      | some c =>
        have hcname : c.name = s1 := findIn_name hf
        have hRname :
            (graft load (c.setDevice .inArchive) (s2 :: r)).dir.name = s1 := by
          rw [graft_dir_name]
          simpa using hcname
        have hRdev :
            (graft load (c.setDevice .inArchive) (s2 :: r)).dir.device =
              Device.inArchive := by
          rw [graft_dir_device]
          simp
        have hsd :
            (graft load (c.setDevice .inArchive) (s2 :: r)).dir.setDevice
              Device.inArchive =
              (graft load (c.setDevice .inArchive) (s2 :: r)).dir := by
          have h0 :=
            Dir.setDevice_same (graft load (c.setDevice .inArchive) (s2 :: r)).dir
          rw [hRdev] at h0
          exact h0
        have hfind2 :
            findIn (replaceChild (makeChild d s1) s1
                (graft load (c.setDevice .inArchive) (s2 :: r)).dir).children
              s1 =
              some (graft load (c.setDevice .inArchive) (s2 :: r)).dir := by
          simp only [replaceChild, Dir.setChildren_def, Dir.children_mk]
          exact findIn_replaceIn_self hf hRname
        have hmk2 :
            makeChild (replaceChild (makeChild d s1) s1
                (graft load (c.setDevice .inArchive) (s2 :: r)).dir) s1 =
              replaceChild (makeChild d s1) s1
                (graft load (c.setDevice .inArchive) (s2 :: r)).dir :=
          makeChild_of_found hfind2
        have hfc2 :
            findChild (makeChild (replaceChild (makeChild d s1) s1
                (graft load (c.setDevice .inArchive) (s2 :: r)).dir) s1) s1 =
              some (graft load (c.setDevice .inArchive) (s2 :: r)).dir := by
          rw [hmk2]
          exact hfind2
        have hrep :
            replaceChild (replaceChild (makeChild d s1) s1
                (graft load (c.setDevice .inArchive) (s2 :: r)).dir) s1
              (graft load (c.setDevice .inArchive) (s2 :: r)).dir =
              replaceChild (makeChild d s1) s1
                (graft load (c.setDevice .inArchive) (s2 :: r)).dir := by
          conv_lhs => rw [replaceChild]
          rw [replaceIn_self hfind2, Dir.setChildren_self]
        rw [graft_cons_cons load d s1 s2 r hf]
        dsimp only
        rw [graft_cons_cons load _ s1 s2 r hfc2]
        rw [hmk2, hsd, ih (c.setDevice .inArchive)]
        dsimp only
        rw [hrep]

theorem countSongIn_append_self (ss : List String) (t : String) :
    countSongIn (ss ++ [t]) t = countSongIn ss t + 1 := by
  induction ss with
  | nil => simp [countSongIn]
  | cons a as ih =>
    by_cases ha : a = t
    · simp [countSongIn, ha, ih]
      omega
    · simp [countSongIn, ha, ih]

theorem hasSongIn_false_of_count_zero {ss : List String} {t : String}
    (h : countSongIn ss t = 0) : hasSongIn ss t = false := by
  induction ss with
  | nil => rfl
  | cons a as ih =>
    by_cases ha : a = t
    · simp [countSongIn, ha] at h
    · simp [countSongIn, ha] at h
      simp [hasSongIn, ha]
      exact ih h

theorem songCountAt_single (d : Dir) (leaf : String) :
    songCountAt d [leaf] = countSongIn d.songs leaf := rfl

theorem songCountAt_cons (d : Dir) (s1 s2 : String) (r : List String) :
    songCountAt d (s1 :: s2 :: r) =
      match findChild d s1 with
      | some c => songCountAt c (s2 :: r)
      | none => 0 := rfl

theorem songCountAt_setDevice (d : Dir) (v : Device) (segs : List String) :
    songCountAt (d.setDevice v) segs = songCountAt d segs := by
  cases segs with
  | nil => rfl
  | cons s1 t =>
    cases t with
    | nil => simp [songCountAt_single]
    | cons s2 r => simp [songCountAt_cons, findChild]

theorem songCountAt_newDir (n : String) (v : Device) (segs : List String) :
    songCountAt ((newDir n).setDevice v) segs = 0 := by
  cases segs with
  | nil => rfl
  | cons s1 t =>
    cases t with
    | nil => simp [songCountAt_single, newDir, countSongIn]
    | cons s2 r => simp [songCountAt_cons, findChild, newDir, findIn]

theorem graft_songCount_one (load : String → Bool) (d : Dir)
    (segs : List String) (hne : segs ≠ []) (hlast : lastSeg segs ≠ "")
    (hload : load (lastSeg segs) = true) (h0 : songCountAt d segs = 0) :
    songCountAt (graft load d segs).dir segs = 1 := by
  induction segs generalizing d with
  | nil => exact absurd rfl hne
  | cons s1 t ih =>
    cases t with
    | nil =>
      have hs1 : s1 ≠ "" := hlast
      have hl : load s1 = true := hload
      rw [songCountAt_single] at h0
      have hfs : findSong d s1 = false := hasSongIn_false_of_count_zero h0
      simp only [graft, if_neg hs1, hfs, Bool.false_eq_true, if_false, hl,
        if_true]
      rw [songCountAt_single]
      simp only [Dir.addSong_def, Dir.songs_mk]
      rw [countSongIn_append_self, h0]
    | cons s2 r =>
      cases hf : findChild (makeChild d s1) s1 with
      | none =>
        rcases findChild_makeChild d s1 with ⟨_, h2⟩ | ⟨c, _, h2⟩ <;>
          rw [h2] at hf <;> exact Option.noConfusion hf
      | some c =>
        have hc0 : songCountAt (c.setDevice .inArchive) (s2 :: r) = 0 := by
          rw [songCountAt_setDevice]
          rcases findChild_makeChild d s1 with ⟨hn, h2⟩ | ⟨c2, hs, h2⟩
          · rw [h2] at hf
            have hcn : c = newDir s1 := (Option.some.injEq _ _ ▸ hf).symm
            subst hcn
            have := songCountAt_newDir s1 Device.normal (s2 :: r)
            rw [songCountAt_setDevice] at this
            have h3 := songCountAt_newDir s1 Device.inArchive (s2 :: r)
            rw [songCountAt_setDevice] at h3
            exact h3
          · rw [h2] at hf
            have hcc : c2 = c := Option.some.inj hf
            subst hcc
            rw [songCountAt_cons, findChild, hs] at h0
            exact h0
        have hRname :
            (graft load (c.setDevice .inArchive) (s2 :: r)).dir.name = s1 := by
          rw [graft_dir_name]
          simpa using findIn_name hf
        rw [graft_cons_cons load d s1 s2 r hf]
        dsimp only
        rw [songCountAt_cons, findChild, replaceChild, Dir.setChildren_def,
          Dir.children_mk, findIn_replaceIn_self hf hRname]
        exact ih (c.setDevice .inArchive) (by simp) hlast hload hc0

theorem totalSongs_eq (d : Dir) :
    totalSongs d = d.songs.length + totalSongsList d.children := by
  cases d
  rw [totalSongs]
  rfl

theorem totalSongsList_nil : totalSongsList [] = 0 := by
  rw [totalSongsList]

theorem totalSongsList_cons (c : Dir) (cs : List Dir) :
    totalSongsList (c :: cs) = totalSongs c + totalSongsList cs := by
  rw [totalSongsList]

theorem totalSongsList_append (cs : List Dir) (x : Dir) :
    totalSongsList (cs ++ [x]) = totalSongsList cs + totalSongs x := by
  induction cs with
  | nil => simp [totalSongsList_nil, totalSongsList_cons]
  | cons a as ih =>
    simp only [List.cons_append, totalSongsList_cons, ih]
    omega

theorem totalSongs_setDevice (d : Dir) (v : Device) :
    totalSongs (d.setDevice v) = totalSongs d := by
  cases d
  simp only [Dir.setDevice_def]
  rw [totalSongs_eq, totalSongs_eq]
  rfl

theorem totalSongs_newDir (n : String) : totalSongs (newDir n) = 0 := by
  rw [newDir, totalSongs_eq]
  simp [totalSongsList_nil]

theorem totalSongsList_replaceIn {cs : List Dir} {n : String} {c : Dir}
    (x : Dir) (h : findIn cs n = some c) :
    totalSongsList (replaceIn cs n x) + totalSongs c =
      totalSongsList cs + totalSongs x := by
  induction cs with
  | nil => simp [findIn] at h
  | cons a as ih =>
    by_cases ha : a.name = n
    · simp [findIn, ha] at h
      subst h
      rw [replaceIn, if_pos ha, totalSongsList_cons, totalSongsList_cons]
      omega
    · simp only [findIn, if_neg ha] at h
      rw [replaceIn, if_neg ha, totalSongsList_cons, totalSongsList_cons]
      have := ih h
      omega

theorem totalSongs_makeChild (d : Dir) (n : String) :
    totalSongs (makeChild d n) = totalSongs d := by
  unfold makeChild
  cases hf : findIn d.children n with
  | some c => rfl
  | none =>
    simp only [Dir.setChildren_def]
    rw [totalSongs_eq, totalSongs_eq]
    simp only [Dir.songs_mk, Dir.children_mk]
    rw [totalSongsList_append, totalSongs_newDir]
    omega

theorem graft_trailing_empty (load : String → Bool) (d : Dir)
    (segs : List String) (hne : segs ≠ []) (hlast : lastSeg segs = "") :
    (graft load d segs).modified = false ∧
      (graft load d segs).warned = true ∧
      totalSongs (graft load d segs).dir = totalSongs d := by
  induction segs generalizing d with
  | nil => exact absurd rfl hne
  | cons s1 t ih =>
    cases t with
    | nil =>
      have hs1 : s1 = "" := hlast
      simp [graft, hs1]
    | cons s2 r =>
      cases hf : findChild (makeChild d s1) s1 with
      | none =>
        rcases findChild_makeChild d s1 with ⟨_, h2⟩ | ⟨c, _, h2⟩ <;>
          rw [h2] at hf <;> exact Option.noConfusion hf
      | some c =>
        have hIH := ih (c.setDevice .inArchive) (by simp) hlast
        rw [graft_cons_cons load d s1 s2 r hf]
        dsimp only
        refine ⟨hIH.1, hIH.2.1, ?_⟩
        have htot :
            totalSongs (graft load (c.setDevice .inArchive) (s2 :: r)).dir =
              totalSongs c := by
          rw [hIH.2.2, totalSongs_setDevice]
        rw [replaceChild, Dir.setChildren_def, totalSongs_eq]
        simp only [Dir.songs_mk, Dir.children_mk]
        have hrep :=
          totalSongsList_replaceIn
            (graft load (c.setDevice .inArchive) (s2 :: r)).dir hf
        rw [htot] at hrep
        have hd1 : totalSongs (makeChild d s1) = totalSongs d :=
          totalSongs_makeChild d s1
        rw [totalSongs_eq] at hd1
        omega

theorem visitFrom_dir_device (load : String → Bool) (throwAt : Option Nat)
    (d : Dir) (i : Nat) (es : List String) :
    (visitFrom load throwAt d i es).1.device = d.device := by
  induction es generalizing d i with
  | nil => rfl
  | cons e t ih =>
    simp only [visitFrom]
    split
    · rfl
    · rw [ih]
      exact graft_dir_device load d (splitOnSlash e)

/-- C3: if the archive's directory node exists, its stored mtime equals
the on-disk mtime and `walk_discard` is off, `UpdateArchiveFile` returns
at once: the tree is untouched, the modified flag is not set, and no
`archive_file_open` attempt is made. -/
theorem c3_unchanged_skip (discard isLocal : Bool)
    (openRes : Option (List String)) (throwAt : Option Nat)
    (load : String → Bool) (parent : Dir) (name : String) (mtime : Nat)
    (dir : Dir) (hfind : findChild parent name = some dir)
    (hmt : dir.mtime = mtime) (hdisc : discard = false) :
    updateArchiveFile discard isLocal openRes throwAt load parent name
      mtime = ⟨parent, false, 0, false, false⟩ := by
  simp [updateArchiveFile, hfind, hmt, hdisc]

/-- C3 witness: a concrete unchanged archive is skipped. -/
theorem c3_unchanged_skip_witness :
    updateArchiveFile false true (some ["x.mod"]) none (fun _ => true)
      sampleParent "a.zip" 5 = ⟨sampleParent, false, 0, false, false⟩ :=
  c3_unchanged_skip false true (some ["x.mod"]) none (fun _ => true)
    sampleParent "a.zip" 5 sampleArchiveDir rfl rfl rfl

/-- C7: when the storage backend yields no local filesystem path for the
archive, `UpdateArchiveFile` is a benign no-op: no open attempt, no tree
mutation, no modified flag. -/
theorem c7_nonlocal_noop (discard : Bool) (openRes : Option (List String))
    (throwAt : Option Nat) (load : String → Bool) (parent : Dir)
    (name : String) (mtime : Nat) :
    updateArchiveFile discard false openRes throwAt load parent name
      mtime = ⟨parent, false, 0, false, false⟩ := by
  simp [updateArchiveFile]

/-- C2: the archive reader is NOT closed on every exit path: when the
visit raises (here at the first entry) after a successful open,
`ArchiveFile::Close` is skipped, because the source runs
`file->Visit(visitor); file->Close();` sequentially with no scope guard.
The final conjunct shows `Close` does run when the visit completes. -/
theorem c2_close_skipped_on_raise :
    (updateArchiveFile false true (some ["t.mod"]) (some 0)
      (fun _ => true) sampleRoot "a.zip" 7).opens = 1 ∧
    (updateArchiveFile false true (some ["t.mod"]) (some 0)
      (fun _ => true) sampleRoot "a.zip" 7).raised = true ∧
    (updateArchiveFile false true (some ["t.mod"]) (some 0)
      (fun _ => true) sampleRoot "a.zip" 7).closed = false ∧
    (updateArchiveFile false true (some ["t.mod"]) none
      (fun _ => true) sampleRoot "a.zip" 7).closed = true :=
  ⟨rfl, rfl, rfl, rfl⟩

theorem updateArchiveFile_openfail_eq {parent : Dir} {name : String}
    {mtime : Nat} {discard : Bool} {dir : Dir}
    (throwAt : Option Nat) (load : String → Bool)
    (hfind : findChild parent name = some dir)
    (hBf : ((dir.mtime == mtime) && !discard) = false) :
    updateArchiveFile discard true none throwAt load parent name mtime =
      ⟨removeChild parent name, false, 1, false, false⟩ := by
  simp [updateArchiveFile, hfind, hBf]

theorem updateArchiveFile_opensuccess_eq {parent : Dir} {name : String}
    {mtime : Nat} {discard : Bool} {dir : Dir} (entries : List String)
    (throwAt : Option Nat) (load : String → Bool)
    (hfind : findChild parent name = some dir)
    (hBf : ((dir.mtime == mtime) && !discard) = false) :
    updateArchiveFile discard true (some entries) throwAt load parent name
      mtime =
      ⟨replaceChild parent name
        (visitFrom load throwAt (dir.setMtime mtime) 0 entries).1,
       (visitFrom load throwAt (dir.setMtime mtime) 0 entries).2.1, 1,
       !(visitFrom load throwAt (dir.setMtime mtime) 0 entries).2.2,
       (visitFrom load throwAt (dir.setMtime mtime) 0 entries).2.2⟩ := by
  simp [updateArchiveFile, hfind, hBf]

theorem updateArchiveFile_create_eq {parent : Dir} {name : String}
    {mtime : Nat} {discard : Bool} (entries : List String)
    (throwAt : Option Nat) (load : String → Bool)
    (hfind : findChild parent name = none) :
    updateArchiveFile discard true (some entries) throwAt load parent name
      mtime =
      ⟨parent.setChildren (parent.children ++
        [(visitFrom load throwAt
          (((newDir name).setDevice .inArchive).setMtime mtime) 0
          entries).1]),
       (visitFrom load throwAt
         (((newDir name).setDevice .inArchive).setMtime mtime) 0
         entries).2.1, 1,
       !(visitFrom load throwAt
         (((newDir name).setDevice .inArchive).setMtime mtime) 0
         entries).2.2,
       (visitFrom load throwAt
         (((newDir name).setDevice .inArchive).setMtime mtime) 0
         entries).2.2⟩ := by
  simp [updateArchiveFile, hfind]

/-- C4: with an existing archive directory node, the node (and with it
its whole subtree value) is removed exactly when the sync gets past the
skip check, the path is local, and `archive_file_open` fails; on that
branch the resulting tree is the old tree with the child deleted, and on
every other branch a child of that name is still present. -/
theorem c4_open_failure_delete (discard isLocal : Bool)
    (openRes : Option (List String)) (throwAt : Option Nat)
    (load : String → Bool) (parent : Dir) (name : String) (mtime : Nat)
    (dir : Dir) (hfind : findChild parent name = some dir)
    (hnodup : nodupNames parent.children = true) :
    (findChild (updateArchiveFile discard isLocal openRes throwAt load
        parent name mtime).parent name = none ↔
      (((dir.mtime == mtime) && !discard) = false ∧ isLocal = true ∧
        openRes = none)) ∧
    ((((dir.mtime == mtime) && !discard) = false → isLocal = true →
      openRes = none →
      (updateArchiveFile discard isLocal openRes throwAt load parent name
        mtime).parent = removeChild parent name)) := by
  by_cases hB : ((dir.mtime == mtime) && !discard) = true
  · have hres : updateArchiveFile discard isLocal openRes throwAt load
        parent name mtime = ⟨parent, false, 0, false, false⟩ := by
      simp [updateArchiveFile, hfind, hB]
    rw [hres]
    constructor
    · simp [hfind, hB]
    · intro h1
      rw [h1] at hB
      exact absurd hB (by simp)
  · have hBf : ((dir.mtime == mtime) && !discard) = false :=
      Bool.eq_false_iff.mpr hB
    cases isLocal with
    | false =>
      have hres : updateArchiveFile discard false openRes throwAt load
          parent name mtime = ⟨parent, false, 0, false, false⟩ := by
        simp [updateArchiveFile]
      rw [hres]
      constructor
      · simp [hfind]
      · intro _ h2 _
        exact absurd h2 (by simp)
    | true =>
      cases openRes with
      | none =>
        rw [updateArchiveFile_openfail_eq throwAt load hfind hBf]
        have hdel : findChild (removeChild parent name) name = none := by
          simp only [findChild, removeChild, Dir.setChildren_def,
            Dir.children_mk]
          exact findIn_removeIn_self hnodup
        exact ⟨⟨fun _ => ⟨hBf, rfl, rfl⟩, fun _ => hdel⟩,
          fun _ _ _ => rfl⟩
      | some entries =>
        rw [updateArchiveFile_opensuccess_eq entries throwAt load hfind hBf]
        have hvname :
            (visitFrom load throwAt (dir.setMtime mtime) 0 entries).1.name =
              name := by
          rw [visitFrom_dir_name]
          simp only [Dir.setMtime_def, Dir.name_mk]
          exact findIn_name hfind
        have hpres :
            findChild (replaceChild parent name
                (visitFrom load throwAt (dir.setMtime mtime) 0 entries).1)
              name =
              some (visitFrom load throwAt (dir.setMtime mtime) 0
                entries).1 := by
          simp only [findChild, replaceChild, Dir.setChildren_def,
            Dir.children_mk]
          exact findIn_replaceIn_self hfind hvname
        constructor
        · rw [hpres]
          simp
        · intro _ _ h3
          exact Option.noConfusion h3

/-- C4 witness: a concrete stale archive whose open fails loses its
subtree. -/
theorem c4_open_failure_delete_witness :
    (updateArchiveFile false true none none (fun _ => true) sampleParent
      "a.zip" 9).parent = removeChild sampleParent "a.zip" :=
  (c4_open_failure_delete false true none none (fun _ => true)
    sampleParent "a.zip" 9 sampleArchiveDir rfl (by decide)).2 (by decide)
    rfl rfl

/-- C8: with an existing archive node whose stored mtime differs from
the on-disk mtime and a successful open, the existing node is reused in
place (the resulting child is exactly the old node with its mtime set
and the entries grafted on top), its stored mtime becomes the on-disk
one, every leaf previously anywhere under it is still present, and the
mtime assignment also happens on the create branch. -/
theorem c8_reuse_update_mtime (discard : Bool) (load : String → Bool)
    (entries : List String) (parent dir : Dir) (name : String)
    (t1 t2 : Nat) (hfind : findChild parent name = some dir)
    (ht1 : dir.mtime = t1) (hne : t1 ≠ t2) :
    findChild (updateArchiveFile discard true (some entries) none load
        parent name t2).parent name =
      some (visitFrom load none (dir.setMtime t2) 0 entries).1 ∧
    (visitFrom load none (dir.setMtime t2) 0 entries).1.mtime = t2 ∧
    (∀ (p : List String) (s : String), songAt dir p s = true →
      songAt (visitFrom load none (dir.setMtime t2) 0 entries).1 p s =
        true) ∧
    (∀ parent2 : Dir, findChild parent2 name = none →
      ∃ c2, findChild (updateArchiveFile discard true (some entries) none
          load parent2 name t2).parent name = some c2 ∧
        c2.mtime = t2 ∧ c2.device = Device.inArchive) := by
  have hBf : ((dir.mtime == t2) && !discard) = false := by
    rw [ht1]
    simp [hne]
  refine ⟨?_, ?_, ?_, ?_⟩
  · rw [updateArchiveFile_opensuccess_eq entries none load hfind hBf]
    have hvname :
        (visitFrom load none (dir.setMtime t2) 0 entries).1.name = name := by
      rw [visitFrom_dir_name]
      simp only [Dir.setMtime_def, Dir.name_mk]
      exact findIn_name hfind
    simp only [findChild, replaceChild, Dir.setChildren_def,
      Dir.children_mk]
    exact findIn_replaceIn_self hfind hvname
  · rw [visitFrom_dir_mtime]
    simp
  · intro p s hs
    apply visitFrom_songAt_mono load none 0 entries
    rw [songAt_setMtime]
    exact hs
  · intro parent2 hf2
    rw [updateArchiveFile_create_eq entries none load hf2]
    refine ⟨(visitFrom load none
        (((newDir name).setDevice .inArchive).setMtime t2) 0 entries).1,
      ?_, ?_, ?_⟩
    · have hvname :
          (visitFrom load none
            (((newDir name).setDevice .inArchive).setMtime t2) 0
            entries).1.name = name := by
        rw [visitFrom_dir_name]
        simp [newDir]
      simp only [findChild, Dir.setChildren_def, Dir.children_mk]
      exact findIn_append_none_self hf2 hvname
    · rw [visitFrom_dir_mtime]
      simp
    · rw [visitFrom_dir_device]
      simp

/-- C8 witness: a concrete changed archive is reused in place with its
mtime updated. -/
theorem c8_reuse_update_mtime_witness :
    findChild (updateArchiveFile false true (some ["b/c.it"]) none
        (fun _ => true) sampleParent "a.zip" 9).parent "a.zip" =
      some (visitFrom (fun _ => true) none (sampleArchiveDir.setMtime 9) 0
        ["b/c.it"]).1 ∧
    (visitFrom (fun _ => true) none (sampleArchiveDir.setMtime 9) 0
      ["b/c.it"]).1.mtime = 9 ∧
    songAt (visitFrom (fun _ => true) none (sampleArchiveDir.setMtime 9) 0
      ["b/c.it"]).1 [] "old.mod" = true := by
  have h := c8_reuse_update_mtime false (fun _ => true) ["b/c.it"]
    sampleParent sampleArchiveDir "a.zip" 5 9 rfl rfl (by decide)
  exact ⟨h.1, h.2.1, h.2.2.1 [] "old.mod" (by decide)⟩

/-- C1 counterexample: grafting the entry `"x/"` into an empty root does
NOT leave the tree unchanged — `UpdateArchiveTree` first makes (and
marks) the child directory `x`, and only then hits the empty final
component and warns. -/
theorem c1_counterexample :
    (graft (fun _ => true) sampleRoot (splitOnSlash "x/")).dir ≠
      sampleRoot := by
  intro h
  have h1 : (graft (fun _ => true) sampleRoot
      (splitOnSlash "x/")).dir.children.length = 1 := rfl
  rw [h] at h1
  exact absurd h1 (by decide)

/-- C1 (amended): for an entry path whose final '/'-separated component
is empty, the graft logs the "archive returned directory only" warning,
does not set the modified flag, and creates no leaf anywhere (the total
leaf count of the subtree is unchanged); directory nodes for the
non-empty leading components may still be created. -/
theorem c1_trailing_slash_no_leaf (load : String → Bool) (d : Dir)
    (p : String) (hlast : lastSeg (splitOnSlash p) = "") :
    (graft load d (splitOnSlash p)).modified = false ∧
      (graft load d (splitOnSlash p)).warned = true ∧
      totalSongs (graft load d (splitOnSlash p)).dir = totalSongs d :=
  graft_trailing_empty load d (splitOnSlash p) (splitOnSlash_ne_nil p)
    hlast

/-- C1 witness: the concrete entry `"x/"` warns, sets no modified flag
and adds no leaf. -/
theorem c1_trailing_slash_no_leaf_witness :
    (graft (fun _ => true) sampleRoot (splitOnSlash "x/")).modified =
      false ∧
    (graft (fun _ => true) sampleRoot (splitOnSlash "x/")).warned =
      true ∧
    totalSongs (graft (fun _ => true) sampleRoot
      (splitOnSlash "x/")).dir = totalSongs sampleRoot :=
  c1_trailing_slash_no_leaf (fun _ => true) sampleRoot "x/" (by decide)

/-- C5: grafting an entry path with a non-empty final component, when
leaf loading succeeds, leaves in the tree a chain of directories named
after every component but the last — each marked `IN_ARCHIVE` — closed
by a leaf named after the last component. -/
theorem c5_graft_chain (load : String → Bool) (d : Dir) (p : String)
    (hlast : lastSeg (splitOnSlash p) ≠ "")
    (hload : load (lastSeg (splitOnSlash p)) = true) :
    hasChain (graft load d (splitOnSlash p)).dir (splitOnSlash p) =
      true :=
  graft_hasChain load d (splitOnSlash p) (splitOnSlash_ne_nil p) hlast
    hload

/-- C5 witness: the concrete entry `"a/b.it"` yields directory `a`
(marked `IN_ARCHIVE`) containing leaf `b.it`. -/
theorem c5_graft_chain_witness :
    hasChain (graft (fun _ => true) sampleRoot
      (splitOnSlash "a/b.it")).dir (splitOnSlash "a/b.it") = true :=
  c5_graft_chain (fun _ => true) sampleRoot "a/b.it" (by decide) rfl

/-- C6: grafting the same entry path a second time is a no-op — the tree
value is unchanged and the modified flag is not set — and when the leaf
was loadable and absent at first, the final directory holds exactly one
leaf of that name after the two grafts, not two. -/
theorem c6_graft_duplicate_suppression (load : String → Bool) (d : Dir)
    (p : String) :
    graft load (graft load d (splitOnSlash p)).dir (splitOnSlash p) =
      ⟨(graft load d (splitOnSlash p)).dir, false,
        (graft load d (splitOnSlash p)).warned⟩ ∧
    (lastSeg (splitOnSlash p) ≠ "" →
      load (lastSeg (splitOnSlash p)) = true →
      songCountAt d (splitOnSlash p) = 0 →
      songCountAt (graft load (graft load d (splitOnSlash p)).dir
        (splitOnSlash p)).dir (splitOnSlash p) = 1) := by
  constructor
  · exact graft_idem load d (splitOnSlash p)
  · intro h1 h2 h3
    rw [graft_idem load d (splitOnSlash p)]
    exact graft_songCount_one load d (splitOnSlash p)
      (splitOnSlash_ne_nil p) h1 h2 h3

/-- C6 witness: grafting `"a/b.it"` twice into an empty root leaves
exactly one `b.it` leaf. -/
theorem c6_graft_duplicate_suppression_witness :
    songCountAt (graft (fun _ => true)
      (graft (fun _ => true) sampleRoot (splitOnSlash "a/b.it")).dir
      (splitOnSlash "a/b.it")).dir (splitOnSlash "a/b.it") = 1 :=
  (c6_graft_duplicate_suppression (fun _ => true) sampleRoot "a/b.it").2
    (by decide) rfl (by decide)

theorem runUpnp_inv (ops : List UOp) :
    ∀ s : UState, s.lib = decide (0 < s.ref) →
    s.initCalls = s.finishCalls + (if 0 < s.ref then 1 else 0) →
    (safeOps s.ref ops = true →
      ∃ s2, runUpnp s ops = some s2 ∧
        s2.ref + countFinishes ops = s.ref + countInits ops ∧
        s2.lib = decide (0 < s2.ref) ∧
        s2.initCalls = s2.finishCalls + (if 0 < s2.ref then 1 else 0)) ∧
    (safeOps s.ref ops = false → runUpnp s ops = none) := by
  induction ops with
  | nil =>
    intro s hlib hcnt
    refine ⟨fun _ => ⟨s, rfl, by simp [countFinishes, countInits], hlib,
      hcnt⟩, fun hbad => ?_⟩
    rw [safeOps] at hbad
    exact Bool.noConfusion hbad
  | cons op t ih =>
    intro s hlib hcnt
    cases op with
    | init =>
      cases hr : s.ref with
      | zero =>
        rw [hr] at hlib hcnt
        simp at hlib hcnt
        have hstep2 : upnpGlobalInit s =
            ⟨1, true, s.initCalls + 1, s.finishCalls⟩ := by
          unfold upnpGlobalInit
          rw [hr]
          simp
        have h2 := ih ⟨1, true, s.initCalls + 1, s.finishCalls⟩ (by simp)
          (by simp [hcnt])
        constructor
        · intro hs
          rw [safeOps] at hs
          obtain ⟨s2, ha, hb, hc, hd⟩ := h2.1 (by simpa using hs)
          refine ⟨s2, ?_, ?_, hc, hd⟩
          · show runUpnp (upnpGlobalInit s) t = some s2
            rw [hstep2]
            exact ha
          · rw [countFinishes, countInits]
            simp only at hb
            omega
        · intro hs
          rw [safeOps] at hs
          show runUpnp (upnpGlobalInit s) t = none
          rw [hstep2]
          exact h2.2 (by simpa using hs)
      | succ k =>
        rw [hr] at hlib hcnt
        have hlibt : s.lib = true := by
          rw [hlib]
          simp
        have hcnt2 : s.initCalls = s.finishCalls + 1 := by
          simpa using hcnt
        have hstep2 : upnpGlobalInit s =
            ⟨k + 1 + 1, s.lib, s.initCalls, s.finishCalls⟩ := by
          unfold upnpGlobalInit
          rw [hr]
          simp
        have h2 := ih ⟨k + 1 + 1, s.lib, s.initCalls, s.finishCalls⟩
          (by simp [hlibt]) (by simp [hcnt2])
        constructor
        · intro hs
          rw [safeOps] at hs
          obtain ⟨s2, ha, hb, hc, hd⟩ := h2.1 (by simpa using hs)
          refine ⟨s2, ?_, ?_, hc, hd⟩
          · show runUpnp (upnpGlobalInit s) t = some s2
            rw [hstep2]
            exact ha
          · rw [countFinishes, countInits]
            simp only at hb
            omega
        · intro hs
          rw [safeOps] at hs
          show runUpnp (upnpGlobalInit s) t = none
          rw [hstep2]
          exact h2.2 (by simpa using hs)
    | finish =>
      cases hr : s.ref with
      | zero =>
        have hfin : upnpGlobalFinish s = none := by
          unfold upnpGlobalFinish
          rw [hr]
          simp
        have hrun : runUpnp s (UOp.finish :: t) = none := by
          rw [runUpnp, hfin]
        refine ⟨fun hs => ?_, fun _ => hrun⟩
        rw [safeOps] at hs
        exact Bool.noConfusion hs
      | succ k =>
        rw [hr] at hlib hcnt
        have hlibt : s.lib = true := by
          rw [hlib]
          simp
        have hcnt2 : s.initCalls = s.finishCalls + 1 := by
          simpa using hcnt
        cases k with
        | zero =>
          have hfin : upnpGlobalFinish s =
              some ⟨0, false, s.initCalls, s.finishCalls + 1⟩ := by
            unfold upnpGlobalFinish
            rw [hr]
            simp
          have h2 := ih ⟨0, false, s.initCalls, s.finishCalls + 1⟩
            (by simp) (by simp [hcnt2])
          constructor
          · intro hs
            rw [safeOps] at hs
            obtain ⟨s2, ha, hb, hc, hd⟩ := h2.1 (by simpa using hs)
            refine ⟨s2, ?_, ?_, hc, hd⟩
            · rw [runUpnp, hfin]
              exact ha
            · rw [countFinishes, countInits]
              simp only at hb
              omega
          · intro hs
            rw [safeOps] at hs
            rw [runUpnp, hfin]
            exact h2.2 (by simpa using hs)
        | succ m =>
          have hfin : upnpGlobalFinish s =
              some ⟨m + 1, s.lib, s.initCalls, s.finishCalls⟩ := by
            unfold upnpGlobalFinish
            rw [hr]
            simp
          have h2 := ih ⟨m + 1, s.lib, s.initCalls, s.finishCalls⟩
            (by simp [hlibt]) (by simp [hcnt2])
          constructor
          · intro hs
            rw [safeOps] at hs
            obtain ⟨s2, ha, hb, hc, hd⟩ := h2.1 (by simpa using hs)
            refine ⟨s2, ?_, ?_, hc, hd⟩
            · rw [runUpnp, hfin]
              exact ha
            · rw [countFinishes, countInits]
              simp only at hb
              omega
          · intro hs
            rw [safeOps] at hs
            rw [runUpnp, hfin]
            exact h2.2 (by simpa using hs)

/-- C9: starting from the untouched process state, any call sequence in
which every `UpnpGlobalFinish` finds a positive counter runs without
tripping the assertion and ends with the counter equal to inits minus
finishes, the library initialized exactly when the counter is positive,
and `UpnpInit`/`UpnpFinish` invocations paired up to the one outstanding
init; a sequence in which some finish call finds a zero counter trips
the `assert(upnp_ref > 0)` (modelled as `none`). -/
theorem c9_upnp_refcount (ops : List UOp) :
    (safeOps 0 ops = true →
      ∃ s, runUpnp upnpStart ops = some s ∧
        s.ref = countInits ops - countFinishes ops ∧
        (s.lib = true ↔ 0 < s.ref) ∧
        s.initCalls = s.finishCalls + (if 0 < s.ref then 1 else 0)) ∧
    (safeOps 0 ops = false → runUpnp upnpStart ops = none) := by
  obtain ⟨hgood, hbad⟩ := runUpnp_inv ops upnpStart rfl rfl
  constructor
  · intro hs
    obtain ⟨s2, h1, h2, h3, h4⟩ := hgood hs
    refine ⟨s2, h1, ?_, ?_, h4⟩
    · rw [upnpStart] at h2
      simp at h2
      omega
    · rw [h3]
      simp
  · exact hbad

/-- C9 witness: a concrete balanced sequence (two inits, one finish). -/
theorem c9_upnp_refcount_witness :
    ∃ s, runUpnp upnpStart [UOp.init, UOp.init, UOp.finish] = some s ∧
      s.ref = countInits [UOp.init, UOp.init, UOp.finish] -
        countFinishes [UOp.init, UOp.init, UOp.finish] ∧
      (s.lib = true ↔ 0 < s.ref) ∧
      s.initCalls = s.finishCalls + (if 0 < s.ref then 1 else 0) :=
  (c9_upnp_refcount [UOp.init, UOp.init, UOp.finish]).1 (by decide)

theorem loadModuleLoop_exceeds (n : Nat) (hn : LIBXMP_FILE_LIMIT < n) :
    ∀ k c, n - c = k → c ≤ LIBXMP_FILE_LIMIT →
      loadModuleLoop n c = .error () := by
  intro k
  induction k using Nat.strong_induction_on with
  | _ k ih =>
    intro c hk hc
    rw [loadModuleLoop]
    have hm : ¬ (min 8192 (n - c) = 0) := by omega
    rw [dif_neg hm]
    by_cases hbig : c + min 8192 (n - c) > LIBXMP_FILE_LIMIT
    · rw [if_pos hbig]
    · rw [if_neg hbig]
      exact ih (n - (c + min 8192 (n - c))) (by omega)
        (c + min 8192 (n - c)) rfl (by omega)

/-- C10: a stream longer than `LIBXMP_FILE_LIMIT` (100 MiB) makes
`Xmp::load_module` throw before producing a buffer, so
`libxmp_scan_stream` returns false and `libxmp_stream_decode` logs a
warning and decodes nothing, whatever the native xmp calls would have
done. -/
theorem c10_xmp_file_limit (n : Nat) (hn : LIBXMP_FILE_LIMIT < n) :
    loadModule n = .error () ∧
    (∀ ctxOk loadOk startOk : Bool,
      libxmpScanStream n ctxOk loadOk startOk = false) ∧
    (∀ (ctxOk loadOk startOk : Bool) (frames : Nat),
      libxmpStreamDecode n ctxOk loadOk startOk frames = (true, 0)) := by
  have hl : loadModule n = .error () :=
    loadModuleLoop_exceeds n hn (n - 0) 0 rfl (by omega)
  refine ⟨hl, ?_, ?_⟩
  · intro ctxOk loadOk startOk
    cases ctxOk <;> simp [libxmpScanStream, xmpConstruct, hl]
  · intro ctxOk loadOk startOk frames
    cases ctxOk <;> simp [libxmpStreamDecode, xmpConstruct, hl]

/-- C10 witness: a concrete 100 MiB + 1 byte stream. -/
theorem c10_xmp_file_limit_witness :
    LIBXMP_FILE_LIMIT < 104857601 ∧
    loadModule 104857601 = Except.error () ∧
    libxmpScanStream 104857601 true true true = false ∧
    libxmpStreamDecode 104857601 true true true 5 = (true, 0) :=
  ⟨by decide, (c10_xmp_file_limit 104857601 (by decide)).1,
    (c10_xmp_file_limit 104857601 (by decide)).2.1 true true true,
    (c10_xmp_file_limit 104857601 (by decide)).2.2 true true true 5⟩
